import Mathlib

/-!
Shallow embedding of the StudyCAT adaptive-testing service and proofs about the
spec's claims. Two code paths of the repository are embedded:

* the MVP service path: dataset.py (ItemRecord), irt_adapter.py (IRTAdapter),
  session_service.py (SessionState / SessionService);
* the engine path: models/unidimensional.py (UnidimensionalModel),
  models/multidimensional.py (MultidimensionalModel), engine/adapter.py
  (choose_next_item) and the finish rule of service/core.py step_attempt.

Python floats are modelled as rationals; Python dicts (which preserve insertion
order) as association lists with update-in-place-or-append assignment; a raised
exception as an error value, together with the mutations that had already
happened before the raise wherever those mutations are observable.
-/

namespace StudyCAT

/-- dataset.py ItemRecord. Fields not read by any embedded operation (stem,
irt_a, irt_b, irt_c, metadata) are omitted. -/
structure ItemRecord where
  item_id : String
  options : List String
  correct_index : Nat
  concept : Option String
deriving DecidableEq

/-- A Python dict from concept name to theta (insertion-ordered). -/
abbrev ThetaMap := List (String × ℚ)

/-- Dict lookup: the value at a key, if present. -/
def tlookup (t : ThetaMap) (k : String) : Option ℚ :=
  match t with
  | [] => none
  | (k', v) :: rest => if k' = k then some v else tlookup rest k

/-- Python dict.get with a default value. -/
def tget (t : ThetaMap) (k : String) (d : ℚ) : ℚ :=
  (tlookup t k).getD d

/-- Python dict assignment: overwrite the key in place if present, otherwise
append it at the end (insertion order). -/
def tset (t : ThetaMap) (k : String) (v : ℚ) : ThetaMap :=
  match t with
  | [] => [(k, v)]
  | (k', v') :: rest => if k' = k then (k', v) :: rest else (k', v') :: tset rest k v

/-- irt_adapter.py IRTAdapter.init_theta: one entry per concept, all at the
prior mean. The prior variance argument is accepted and ignored, as in the
source. -/
def init_theta (concepts : List String) (prior_mu : ℚ) (_prior_sigma2 : ℚ) : ThetaMap :=
  concepts.map (fun c => (c, prior_mu))

/-- The key irt_adapter.py update_theta writes:
concept = item.concept or next(iter(theta.keys())).
A None or empty-string concept is falsy in Python, so the fallback is the
dict's first key; none models the StopIteration raised by next(iter(...)) on
an empty dict. -/
def updateKey (theta : ThetaMap) (concept : Option String) : Option String :=
  match concept with
  | some c => if c = "" then theta.head?.map Prod.fst else some c
  | none => theta.head?.map Prod.fst

/-- irt_adapter.py IRTAdapter.update_theta: copies the incoming dict
(new_theta = dict(theta), so the caller's mapping is never mutated — here the
function is pure) and adds plus or minus 0.1 to the entry at updateKey,
defaulting a missing entry to 0.0. Returns none exactly when updateKey raises. -/
def update_theta (theta : ThetaMap) (item : ItemRecord) (is_correct : Bool) : Option ThetaMap :=
  match updateKey theta item.concept with
  | none => none
  | some k =>
      let step : ℚ := if is_correct then 1/10 else -(1/10)
      some (tset theta k (tget theta k 0 + step))

/-- irt_adapter.py IRTAdapter.information: the placeholder returns the
constant 1.0 for every theta and item. -/
def information (_theta : ThetaMap) (_item : ItemRecord) : ℚ := 1

/-- irt_adapter.py IRTAdapter.select_next: filters the candidates down to the
unasked pool and returns a pseudo-random element of it, or None when the pool
is empty. The Mersenne-Twister draw self._rng.choice(pool), which picks the
element at index _randbelow(len(pool)), is modelled by an explicit draw k with
index k % pool.length; the adapter's hidden RNG state is thereby an input. -/
def select_next (k : Nat) (_theta : ThetaMap) (candidates : List ItemRecord)
    (asked : List String) : Option ItemRecord :=
  let pool := candidates.filter (fun it => !(asked.contains it.item_id))
  pool[k % pool.length]?

/-- dataset.py Dataset: the indexed item records, in spreadsheet row order. -/
abbrev Dataset := List ItemRecord

/-- dataset.py Dataset.get_item: lookup by item id (ids are unique in the
index, so the first match is the dict entry). -/
def get_item (ds : Dataset) (item_id : String) : Option ItemRecord :=
  ds.find? (fun it => it.item_id = item_id)

/-- dataset.py Dataset.items_by_concepts: all items when the concept list is
falsy, otherwise the items whose concept is in the list (items with a missing
concept never match). -/
def items_by_concepts (ds : Dataset) (concepts : List String) : List ItemRecord :=
  if concepts = [] then ds
  else ds.filter (fun it =>
    match it.concept with
    | some c => concepts.contains c
    | none => false)

/-- session_service.py SessionState (the session_id, which only keys the
store, is omitted). -/
structure SessionState where
  concepts : List String
  max_items : Nat
  theta : ThetaMap
  asked : List String
  finished : Bool
deriving DecidableEq

/-- Errors raised by session_service.py: the two ValueErrors of step and the
StopIteration that update_theta can raise. -/
inductive StepErr where
  | unknownItem
  | answerIndexOutOfRange
  | emptyThetaMap
deriving DecidableEq

/-- session_service.py SessionService.init_session: resolve the concept scope
(defaulting to the sorted set of truthy concepts present in the dataset, or
["general"]), then build the fresh state. The max_items fallback
(min(settings.MAX_SESSION_ITEMS, 20)) is left to the caller here. -/
def init_session (ds : Dataset) (concepts : List String) (max_items : Nat)
    (prior_mu : ℚ) (prior_sigma2 : ℚ) : SessionState :=
  let cs :=
    if concepts = [] then
      let u := List.insertionSort (· ≤ ·)
        (((ds.filterMap fun it => it.concept).filter (fun c => c ≠ "")).dedup)
      if u = [] then ["general"] else u
    else concepts
  { concepts := cs
    max_items := max_items
    theta := init_theta cs prior_mu prior_sigma2
    asked := []
    finished := false }

/-- session_service.py SessionService.next_item: marks the session finished
and yields None when it is already finished or the cap is reached; otherwise
delegates to select_next over the concept-scoped candidates, excluding asked
items. Returns the (possibly updated) state together with the item. -/
def session_next_item (ds : Dataset) (k : Nat) (st : SessionState) :
    SessionState × Option ItemRecord :=
  if st.finished = true ∨ st.max_items ≤ st.asked.length then
    ({ st with finished := true }, none)
  else
    let candidates := items_by_concepts ds st.concepts
    (st, select_next k st.theta candidates st.asked)

/-- The tail of session_service.py SessionService.step: the stop rule
(finished when the cap is reached) followed by next-item selection. -/
def stepFinish (ds : Dataset) (k : Nat) (st : SessionState) :
    Except StepErr (SessionState × Option ItemRecord) :=
  if st.max_items ≤ st.asked.length then
    .ok ({ st with finished := true }, none)
  else
    .ok (session_next_item ds k st)

/-- session_service.py SessionService.step. An answer (item_id, answer_index),
when supplied, is validated only against the dataset: unknown id and
out-of-range index raise ValueError; there is no check against any pending
item. On a valid answer the theta map is updated and the item id is appended
to asked unless already present; then the stop rule runs. All raises happen
before any state mutation, so the error cases leave the state unchanged. -/
def step (ds : Dataset) (k : Nat) (st : SessionState)
    (answer : Option (String × Nat)) :
    Except StepErr (SessionState × Option ItemRecord) :=
  match answer with
  | none => stepFinish ds k st
  | some (item_id, answer_index) =>
    match get_item ds item_id with
    | none => .error .unknownItem
    | some item =>
      if answer_index < item.options.length then
        let is_correct : Bool := answer_index = item.correct_index
        match update_theta st.theta item is_correct with
        | none => .error .emptyThetaMap
        | some θ' =>
          let st1 := { st with theta := θ' }
          let st2 := if st1.asked.contains item_id then st1
                     else { st1 with asked := st1.asked ++ [item_id] }
          stepFinish ds k st2
      else .error .answerIndexOutOfRange

/-- session_service.py step's placeholder mastery heuristic:
mastery = {c: v >= 0.5 for c, v in theta.items()}. -/
def mastery_map (theta : ThetaMap) : List (String × Bool) :=
  theta.map (fun p => (p.1, decide ((1 : ℚ)/2 ≤ p.2)))

/-- A run of the session service: fold step over a list of (rng draw, answer)
calls, keeping the prior state when a call raises (the raises in step all
happen before any mutation). -/
def runSteps (ds : Dataset) (st : SessionState) :
    List (Nat × Option (String × Nat)) → SessionState
  | [] => st
  | (k, a) :: rest =>
    match step ds k st a with
    | .ok (st', _) => runSteps ds st' rest
    | .error _ => runSteps ds st rest

/-! The engine path: models/unidimensional.py and models/multidimensional.py
wrap the external adaptivetesting library's TestAssembler. The library state a
wrapper reads and writes (ability_level, standard_error, response_pattern,
answered_items, item_pool) is inlined into the model structure; the library's
ability estimator and item selection strategy, which are constructor-injected
class/strategy arguments (BayesModal, maximum_information_criterion by
default) and whose code is not part of this repository, are abstract function
fields. -/

/-- adaptivetesting TestItem as used by this repository: the id (a uuid in
engine/adapter.py, an int in the test script) and the 3PL parameters. -/
structure TestItem where
  id : Nat
  a : ℚ
  b : ℚ
  c : ℚ
deriving DecidableEq

/-- models/unidimensional.py UnidimensionalModel together with the
TestAssembler state it wraps. response_pattern stores 1/0 as true/false. The
estimator maps the full (response_pattern, answered_items) history to the
(theta, standard error) pair; the selector maps (item_pool, ability_level) to
the chosen item, with none modelling the ItemSelectionException raised when it
cannot choose. -/
structure UnidimensionalModel where
  skill : String
  mastery_threshold : ℚ
  ability_level : ℚ
  standard_error : Option ℚ
  response_pattern : List Bool
  answered_items : List TestItem
  item_pool : List TestItem
  questions_left : Bool
  mastery_reached : Bool
  estimator : List Bool → List TestItem → ℚ × ℚ
  selector : List TestItem → ℚ → Option TestItem

/-- models/unidimensional.py get_theta. -/
def UnidimensionalModel.get_theta (m : UnidimensionalModel) : ℚ :=
  m.ability_level

/-- models/unidimensional.py get_next_item: delegates to the library's
selection over the pool at the current theta, with no look at the mastery or
exhaustion flags; an ItemSelectionException (selector = none) is caught,
setting questions_left := false and returning None. Returns the item together
with the updated model. -/
def UnidimensionalModel.get_next_item (m : UnidimensionalModel) :
    Option TestItem × UnidimensionalModel :=
  match m.selector m.item_pool m.ability_level with
  | some it => (some it, m)
  | none => (none, { m with questions_left := false })

/-- The error a failing engine call raises. -/
inductive EngineErr where
  | unknownItem
deriving DecidableEq

/-- models/unidimensional.py record_response. The source appends to
response_pattern and answered_items first, then calls
item_pool.delete_item(item); per the spec's Item Pool contract the removal of
an absent item fails (UnknownItemError), and the appends that already happened
survive the raise, so the error result keeps them. On success the estimator is
rerun over the entire updated history, theta and the standard error are
overwritten, and mastery_reached is set when the new theta strictly exceeds
the threshold (the source tests get_theta() > mastery_threshold). -/
def UnidimensionalModel.record_response (m : UnidimensionalModel)
    (response : Bool) (item : TestItem) :
    Option EngineErr × UnidimensionalModel :=
  let m1 := { m with response_pattern := m.response_pattern ++ [response]
                     answered_items := m.answered_items ++ [item] }
  if m1.item_pool.contains item then
    let m2 := { m1 with item_pool := m1.item_pool.erase item }
    let es := m2.estimator m2.response_pattern m2.answered_items
    let m3 := { m2 with ability_level := es.1, standard_error := some es.2 }
    if m3.mastery_threshold < m3.get_theta then
      (none, { m3 with mastery_reached := true })
    else
      (none, m3)
  else
    (some .unknownItem, m1)

/-- models/multidimensional.py MultidimensionalModel: the insertion-ordered
dict of per-skill models (student_id and test_id are unused). -/
structure MultidimensionalModel where
  models : List (String × UnidimensionalModel)

/-- One insertion step of Python's stable sort by theta: a model goes in front
of the first model whose theta is greater than or equal to its own, so models
with equal theta keep their original relative order. -/
def insertByTheta (x : String × UnidimensionalModel) :
    List (String × UnidimensionalModel) → List (String × UnidimensionalModel)
  | [] => [x]
  | y :: ys =>
    if x.2.get_theta ≤ y.2.get_theta then x :: y :: ys else y :: insertByTheta x ys

/-- Python's sorted(models.items(), key=theta): a stable sort by theta. -/
def sortByTheta :
    List (String × UnidimensionalModel) → List (String × UnidimensionalModel)
  | [] => []
  | x :: xs => insertByTheta x (sortByTheta xs)

/-- The pair of continue-tests inside models/multidimensional.py
get_next_item: the model is considered iff questions_left holds and
mastery_reached does not. -/
def eligSkill (m : UnidimensionalModel) : Bool :=
  m.questions_left && !m.mastery_reached

/-- The scan inside models/multidimensional.py get_next_item: skip models
without questions_left or with mastery_reached, and return the first per-skill
item that is not None. -/
def firstItem : List (String × UnidimensionalModel) → Option TestItem
  | [] => none
  | (_, m) :: rest =>
    if eligSkill m then
      match (m.get_next_item).1 with
      | some it => some it
      | none => firstItem rest
    else firstItem rest

/-- models/multidimensional.py get_next_item: sort the models by current theta
(stably, so equal thetas keep dict insertion order), then scan. The source
also flips questions_left on models whose own get_next_item returned None
during the scan; that side effect does not change the returned item and is not
carried here. -/
def MultidimensionalModel.get_next_item (mm : MultidimensionalModel) :
    Option TestItem :=
  firstItem (sortByTheta mm.models)

/-- engine/adapter.py choose_next_item: wrap the model's choice and identify
the owning skill as the first one whose pool contains the chosen item,
yielding (None, None) when the model returns None. -/
def choose_next_item (mm : MultidimensionalModel) :
    Option TestItem × Option String :=
  match mm.get_next_item with
  | none => (none, none)
  | some it =>
    (some it, (mm.models.find? (fun p => p.2.item_pool.contains it)).map Prod.fst)

/-- The finish rule of service/core.py step_attempt (lines 271-274): after the
replayed responses, is_finished is exactly "choose_next_item returned no
item"; no item-cap test takes part. -/
def step_attempt_is_finished (mm : MultidimensionalModel) : Bool :=
  ((choose_next_item mm).1).isNone

/-- A run of the engine skill model: fold record_response over a list of
(response, item) pairs, keeping each call's result state (including the
partially mutated state of a failing call, as the caller sees it after the
raise). -/
def applyAll (m : UnidimensionalModel) :
    List (Bool × TestItem) → UnidimensionalModel
  | [] => m
  | (r, it) :: rest => applyAll ((m.record_response r it).2) rest

/-- Every call in the run finds its item in the pool of the moment, i.e. every
record_response succeeds. -/
def allOk (m : UnidimensionalModel) : List (Bool × TestItem) → Bool
  | [] => true
  | (r, it) :: rest =>
    m.item_pool.contains it && allOk ((m.record_response r it).2) rest

/-- Whether the per-skill selection yields an item for this model right now. -/
def suppliesItem (m : UnidimensionalModel) : Bool :=
  (m.selector m.item_pool m.ability_level).isSome

/-- Decidable equality for Except results, used to evaluate step outcomes on
concrete fixtures. -/
def exceptDecEq {ε α : Type} [DecidableEq ε] [DecidableEq α] :
    DecidableEq (Except ε α) := fun a b =>
  match a, b with
  | .error e, .error f =>
    if h : e = f then isTrue (congrArg Except.error h)
    else isFalse (fun hh => h (Except.error.inj hh))
  | .ok x, .ok y =>
    if h : x = y then isTrue (congrArg Except.ok h)
    else isFalse (fun hh => h (Except.ok.inj hh))
  | .error _, .ok _ => isFalse (fun hh => Except.noConfusion hh)
  | .ok _, .error _ => isFalse (fun hh => Except.noConfusion hh)

instance {ε α : Type} [DecidableEq ε] [DecidableEq α] : DecidableEq (Except ε α) :=
  exceptDecEq

/-! Concrete fixtures used by the counterexamples and witnesses. -/

/-- Fixture: a dataset item of concept "c". -/
def itemA : ItemRecord := ⟨"a", ["x", "y"], 0, some "c"⟩

/-- Fixture: a second dataset item of concept "c". -/
def itemB : ItemRecord := ⟨"b", ["x", "y"], 0, some "c"⟩

/-- Fixture: an item whose concept is the empty string (falsy in Python). -/
def itemE : ItemRecord := ⟨"e", ["x"], 0, some ""⟩

/-- Fixture: a two-item dataset. -/
def dsAB : Dataset := [itemA, itemB]

/-- Fixture: a session over dsAB capped at one item. -/
def sessAB1 : SessionState := init_session dsAB ["c"] 1 0 1

/-- Fixture: a session over dsAB capped at five items. -/
def sessAB5 : SessionState := init_session dsAB ["c"] 5 0 1

/-- Fixture: the five-item-cap session after both items were answered. -/
def sess6 : SessionState :=
  runSteps dsAB sessAB5 [(0, some ("a", 0)), (0, some ("b", 0))]

/-- Fixture: the one-item-cap session after its single item was answered
(finished, at capacity). -/
def sess8 : SessionState := runSteps dsAB sessAB1 [(0, some ("a", 0))]

/-- Fixture: the state the five-item-cap session reaches after one correct
answer on item "a" (theta written as the unevaluated sum the code builds). -/
def sess6w : SessionState := ⟨["c"], 5, [("c", 0 + 1/10)], ["a"], false⟩

/-- Fixture: an engine test item. -/
def tItem1 : TestItem := ⟨1, 1, 0, 0⟩

/-- Fixture: an engine test item for skill "a". -/
def tItemA : TestItem := ⟨10, 1, 0, 0⟩

/-- Fixture: an engine test item for skill "b". -/
def tItemB : TestItem := ⟨20, 1, 2, 0⟩

/-- Fixture: an ability estimator returning a constant estimate. -/
def constEstimator (v : ℚ) : List Bool → List TestItem → ℚ × ℚ :=
  fun _ _ => (v, 1)

/-- Fixture: a selection strategy taking the first pool item (none on an empty
pool, as the library's exception does). -/
def headSelector : List TestItem → ℚ → Option TestItem :=
  fun pool _ => pool.head?

/-- Fixture builder for engine skill models. -/
def mkUni (skill : String) (thr θ : ℚ) (pool : List TestItem) (ql mr : Bool)
    (est : List Bool → List TestItem → ℚ × ℚ) : UnidimensionalModel :=
  { skill := skill
    mastery_threshold := thr
    ability_level := θ
    standard_error := none
    response_pattern := []
    answered_items := []
    item_pool := pool
    questions_left := ql
    mastery_reached := mr
    estimator := est
    selector := headSelector }

/-- Fixture: a skill model whose estimator lands exactly on the mastery
threshold. -/
def uniAtThreshold : UnidimensionalModel :=
  mkUni "alg" 1 0 [tItem1] true false (constEstimator 1)

/-- Fixture: a skill model with an empty pool. -/
def uniEmptyPool : UnidimensionalModel :=
  mkUni "alg" 1 0 [] true false (constEstimator 0)

/-- Fixture: a mastered skill model whose pool is nonempty. -/
def uniMastered : UnidimensionalModel :=
  mkUni "alg" 1 0 [tItem1] true true (constEstimator 0)

/-- Fixture: a skill model with a two-item pool. -/
def engUni : UnidimensionalModel :=
  mkUni "alg" 1 0 [tItem1, tItemA] true false (constEstimator 1)

/-- Fixture: skill "b", eligible, theta 0. -/
def uniB : UnidimensionalModel := mkUni "b" 1 0 [tItemB] true false (constEstimator 0)

/-- Fixture: skill "a", eligible, theta 0. -/
def uniA : UnidimensionalModel := mkUni "a" 1 0 [tItemA] true false (constEstimator 0)

/-- Fixture: a multi-skill model whose dict lists "b" before "a", both at
theta 0. -/
def mmBA : MultidimensionalModel := ⟨[("b", uniB), ("a", uniA)]⟩

/-! Helper lemmas about the session path. -/

theorem tlookup_tset_ne (t : ThetaMap) (k : String) (v : ℚ) (k' : String)
    (h : k' ≠ k) : tlookup (tset t k v) k' = tlookup t k' := by
  induction t with
  | nil =>
    simp only [tset, tlookup]
    rw [if_neg (fun hh => h hh.symm)]
  | cons p rest ih =>
    obtain ⟨k₀, v₀⟩ := p
    simp only [tset]
    by_cases hk : k₀ = k
    · rw [if_pos hk]
      simp only [tlookup]
      rw [if_neg (by rw [hk]; exact fun hh => h hh.symm),
          if_neg (by rw [hk]; exact fun hh => h hh.symm)]
    · rw [if_neg hk]
      simp only [tlookup]
      by_cases hk' : k₀ = k'
      · rw [if_pos hk', if_pos hk']
      · rw [if_neg hk', if_neg hk', ih]

theorem stepFinish_spec (ds : Dataset) (k : Nat) (st : SessionState) :
    ∃ ni, stepFinish ds k st =
      .ok ({ st with
             finished := st.finished || decide (st.max_items ≤ st.asked.length) },
           ni) := by
  unfold stepFinish session_next_item
  by_cases hle : st.max_items ≤ st.asked.length
  · refine ⟨none, ?_⟩
    rw [if_pos hle, decide_eq_true hle, Bool.or_true]
  · rw [if_neg hle, decide_eq_false hle, Bool.or_false]
    by_cases hf : st.finished = true
    · refine ⟨none, ?_⟩
      rw [if_pos (Or.inl hf), hf]
    · refine ⟨select_next k st.theta (items_by_concepts ds st.concepts) st.asked, ?_⟩
      rw [if_neg (fun hor => hor.elim hf hle)]

theorem step_some_spec (ds : Dataset) (k : Nat) (st : SessionState)
    (a : String) (i : Nat) (it : ItemRecord) (θ' : ThetaMap)
    (hit : get_item ds a = some it)
    (hlt : i < it.options.length)
    (hθ : update_theta st.theta it (decide (i = it.correct_index)) = some θ') :
    step ds k st (some (a, i)) =
      stepFinish ds k
        (if st.asked.contains a then { st with theta := θ' }
         else { st with theta := θ', asked := st.asked ++ [a] }) := by
  simp only [step]
  rw [hit]
  dsimp only
  rw [if_pos hlt, hθ]

theorem step_ok_spec (ds : Dataset) (k : Nat) (st : SessionState)
    (ans : Option (String × Nat)) (st' : SessionState) (ni : Option ItemRecord)
    (h : step ds k st ans = .ok (st', ni)) :
    ∃ asked2, (asked2 = st.asked ∨ ∃ a, asked2 = st.asked ++ [a]) ∧
      st'.asked = asked2 ∧
      st'.finished = (st.finished || decide (st.max_items ≤ asked2.length)) ∧
      st'.max_items = st.max_items := by
  rcases ans with _ | ⟨a, i⟩
  · simp only [step] at h
    obtain ⟨ni₀, hsf⟩ := stepFinish_spec ds k st
    rw [hsf] at h
    rw [Except.ok.injEq, Prod.mk.injEq] at h
    obtain ⟨h1, _⟩ := h
    refine ⟨st.asked, Or.inl rfl, ?_, ?_, ?_⟩ <;> rw [← h1]
  · simp only [step] at h
    cases hg : get_item ds a with
    | none => rw [hg] at h; cases h
    | some it =>
      rw [hg] at h
      dsimp only at h
      by_cases hlt : i < it.options.length
      · rw [if_pos hlt] at h
        cases hu : update_theta st.theta it (decide (i = it.correct_index)) with
        | none => rw [hu] at h; cases h
        | some θ' =>
          rw [hu] at h
          dsimp only at h
          by_cases hc : st.asked.contains a
          · rw [if_pos hc] at h
            obtain ⟨ni₀, hsf⟩ := stepFinish_spec ds k { st with theta := θ' }
            rw [hsf] at h
            rw [Except.ok.injEq, Prod.mk.injEq] at h
            obtain ⟨h1, _⟩ := h
            refine ⟨st.asked, Or.inl rfl, ?_, ?_, ?_⟩ <;> rw [← h1]
          · rw [if_neg hc] at h
            obtain ⟨ni₀, hsf⟩ :=
              stepFinish_spec ds k { st with theta := θ', asked := st.asked ++ [a] }
            rw [hsf] at h
            rw [Except.ok.injEq, Prod.mk.injEq] at h
            obtain ⟨h1, _⟩ := h
            refine ⟨st.asked ++ [a], Or.inr ⟨a, rfl⟩, ?_, ?_, ?_⟩ <;> rw [← h1]
      · rw [if_neg hlt] at h
        cases h

/-! Helper lemmas about the engine path. -/

theorem uniGet_fst (m : UnidimensionalModel) :
    (m.get_next_item).1 = m.selector m.item_pool m.ability_level := by
  unfold UnidimensionalModel.get_next_item
  cases m.selector m.item_pool m.ability_level <;> rfl

theorem record_response_ok_spec (m : UnidimensionalModel) (r : Bool) (it : TestItem)
    (h : m.item_pool.contains it = true) :
    m.record_response r it =
      (none,
       { m with
         response_pattern := m.response_pattern ++ [r]
         answered_items := m.answered_items ++ [it]
         item_pool := m.item_pool.erase it
         ability_level :=
           (m.estimator (m.response_pattern ++ [r]) (m.answered_items ++ [it])).1
         standard_error :=
           some (m.estimator (m.response_pattern ++ [r]) (m.answered_items ++ [it])).2
         mastery_reached := m.mastery_reached ||
           decide (m.mastery_threshold <
             (m.estimator (m.response_pattern ++ [r]) (m.answered_items ++ [it])).1) }) := by
  unfold UnidimensionalModel.record_response
  dsimp only [UnidimensionalModel.get_theta]
  rw [if_pos h]
  by_cases h2 : m.mastery_threshold <
      (m.estimator (m.response_pattern ++ [r]) (m.answered_items ++ [it])).1
  · rw [if_pos h2, decide_eq_true h2, Bool.or_true]
  · rw [if_neg h2, decide_eq_false h2, Bool.or_false]

theorem record_response_fail_spec (m : UnidimensionalModel) (r : Bool) (it : TestItem)
    (h : m.item_pool.contains it = false) :
    m.record_response r it =
      (some .unknownItem,
       { m with
         response_pattern := m.response_pattern ++ [r]
         answered_items := m.answered_items ++ [it] }) := by
  unfold UnidimensionalModel.record_response
  dsimp only
  rw [if_neg (fun hh => Bool.false_ne_true (h ▸ hh))]

theorem record_response_ignores_theta (m : UnidimensionalModel) (θ₀ : ℚ) (r : Bool)
    (it : TestItem) (h : m.item_pool.contains it = true) :
    ({ m with ability_level := θ₀ } : UnidimensionalModel).record_response r it =
      m.record_response r it := by
  rw [record_response_ok_spec { m with ability_level := θ₀ } r it h,
      record_response_ok_spec m r it h]

theorem applyAll_theta_eq_estimate (hist : List (Bool × TestItem)) :
    ∀ (m : UnidimensionalModel) (r : Bool) (it : TestItem),
      allOk m ((r, it) :: hist) = true →
      (applyAll m ((r, it) :: hist)).ability_level =
        (m.estimator (m.response_pattern ++ ((r, it) :: hist).map Prod.fst)
                     (m.answered_items ++ ((r, it) :: hist).map Prod.snd)).1 := by
  induction hist with
  | nil =>
    intro m r it h
    simp only [allOk, Bool.and_eq_true] at h
    obtain ⟨h1, _⟩ := h
    simp only [applyAll]
    rw [record_response_ok_spec m r it h1]
    dsimp only
    simp only [List.map_cons, List.map_nil]
  | cons p rest ih =>
    intro m r it h
    obtain ⟨r2, it2⟩ := p
    have hsplit : allOk m ((r, it) :: (r2, it2) :: rest) =
        (m.item_pool.contains it &&
          allOk ((m.record_response r it).2) ((r2, it2) :: rest)) := rfl
    rw [hsplit, Bool.and_eq_true] at h
    obtain ⟨h1, h2⟩ := h
    have hrec := record_response_ok_spec m r it h1
    have step2 := ih ((m.record_response r it).2) r2 it2 h2
    rw [hrec] at step2
    dsimp only at step2
    have hg : applyAll m ((r, it) :: (r2, it2) :: rest) =
        applyAll ((m.record_response r it).2) ((r2, it2) :: rest) := rfl
    rw [hg, hrec]
    dsimp only
    rw [step2]
    simp only [List.map_cons, List.append_assoc, List.cons_append, List.nil_append]

theorem applyAll_ignores_theta (hist : List (Bool × TestItem))
    (m : UnidimensionalModel) (θ₀ : ℚ) (r : Bool) (it : TestItem)
    (h : m.item_pool.contains it = true) :
    applyAll { m with ability_level := θ₀ } ((r, it) :: hist) =
      applyAll m ((r, it) :: hist) := by
  simp only [applyAll]
  rw [record_response_ignores_theta m θ₀ r it h]

theorem firstItem_none_iff (l : List (String × UnidimensionalModel)) :
    firstItem l = none ↔
      ∀ p ∈ l, eligSkill p.2 = true →
        p.2.selector p.2.item_pool p.2.ability_level = none := by
  induction l with
  | nil => simp [firstItem]
  | cons q rest ih =>
    obtain ⟨s, m⟩ := q
    simp only [List.mem_cons, forall_eq_or_imp]
    by_cases he : eligSkill m = true
    · cases hs : m.selector m.item_pool m.ability_level with
      | some it =>
        have hl : firstItem ((s, m) :: rest) = some it := by
          simp [firstItem, if_pos he, uniGet_fst, hs]
        rw [hl]
        constructor
        · intro hh; cases hh
        · intro hh
          exact hh.1 he
      | none =>
        have hl : firstItem ((s, m) :: rest) = firstItem rest := by
          simp [firstItem, if_pos he, uniGet_fst, hs]
        rw [hl, ih]
        constructor
        · intro hh
          exact ⟨fun _ => rfl, hh⟩
        · intro hh
          exact hh.2
    · have hl : firstItem ((s, m) :: rest) = firstItem rest := by
        simp [firstItem, if_neg he]
      rw [hl, ih]
      constructor
      · intro hh
        exact ⟨fun hee => absurd hee he, hh⟩
      · intro hh
        exact hh.2

theorem firstItem_min (it : TestItem) :
    ∀ l : List (String × UnidimensionalModel),
      List.Pairwise (fun a b => a.2.get_theta ≤ b.2.get_theta) l →
      firstItem l = some it →
      ∃ p ∈ l, eligSkill p.2 = true ∧
        p.2.selector p.2.item_pool p.2.ability_level = some it ∧
        ∀ q ∈ l, eligSkill q.2 = true → suppliesItem q.2 = true →
          p.2.get_theta ≤ q.2.get_theta := by
  intro l
  induction l with
  | nil => intro _ h; cases h
  | cons q rest ih =>
    intro hs h
    obtain ⟨s, m⟩ := q
    rw [List.pairwise_cons] at hs
    obtain ⟨hall, hrest⟩ := hs
    by_cases he : eligSkill m = true
    · cases hsel : m.selector m.item_pool m.ability_level with
      | some it2 =>
        have heq : some it2 = some it := by
          simpa [firstItem, if_pos he, uniGet_fst, hsel] using h
        obtain rfl := Option.some.inj heq
        refine ⟨(s, m), List.mem_cons_self _ _, he, hsel, ?_⟩
        intro q hq _ _
        rcases List.mem_cons.mp hq with rfl | hq'
        · exact le_refl _
        · exact hall q hq'
      | none =>
        have h' : firstItem rest = some it := by
          simpa [firstItem, if_pos he, uniGet_fst, hsel] using h
        obtain ⟨p, hp, he', hsel', hmin⟩ := ih hrest h'
        refine ⟨p, List.mem_cons_of_mem _ hp, he', hsel', ?_⟩
        intro q hq hqe hqs
        rcases List.mem_cons.mp hq with rfl | hq'
        · exfalso
          rw [suppliesItem, hsel] at hqs
          cases hqs
        · exact hmin q hq' hqe hqs
    · have h' : firstItem rest = some it := by
        simpa [firstItem, if_neg he] using h
      obtain ⟨p, hp, he', hsel', hmin⟩ := ih hrest h'
      refine ⟨p, List.mem_cons_of_mem _ hp, he', hsel', ?_⟩
      intro q hq hqe hqs
      rcases List.mem_cons.mp hq with rfl | hq'
      · exact absurd hqe he
      · exact hmin q hq' hqe hqs

theorem insertByTheta_perm (x : String × UnidimensionalModel)
    (l : List (String × UnidimensionalModel)) :
    List.Perm (insertByTheta x l) (x :: l) := by
  induction l with
  | nil => exact List.Perm.refl _
  | cons y ys ih =>
    unfold insertByTheta
    by_cases h : x.2.get_theta ≤ y.2.get_theta
    · rw [if_pos h]
    · rw [if_neg h]
      exact List.Perm.trans (List.Perm.cons y ih) (List.Perm.swap x y ys)

theorem sortByTheta_perm (l : List (String × UnidimensionalModel)) :
    List.Perm (sortByTheta l) l := by
  induction l with
  | nil => exact List.Perm.refl _
  | cons x xs ih =>
    simp only [sortByTheta]
    exact List.Perm.trans (insertByTheta_perm x (sortByTheta xs))
      (List.Perm.cons x ih)

theorem insertByTheta_pairwise (x : String × UnidimensionalModel)
    (l : List (String × UnidimensionalModel))
    (h : List.Pairwise (fun a b => a.2.get_theta ≤ b.2.get_theta) l) :
    List.Pairwise (fun a b => a.2.get_theta ≤ b.2.get_theta)
      (insertByTheta x l) := by
  induction l with
  | nil => simp [insertByTheta]
  | cons y ys ih =>
    rw [List.pairwise_cons] at h
    obtain ⟨hy, hys⟩ := h
    unfold insertByTheta
    by_cases hle : x.2.get_theta ≤ y.2.get_theta
    · rw [if_pos hle]
      rw [List.pairwise_cons]
      refine ⟨?_, List.pairwise_cons.mpr ⟨hy, hys⟩⟩
      intro a ha
      rcases List.mem_cons.mp ha with rfl | ha'
      · exact hle
      · exact le_trans hle (hy a ha')
    · rw [if_neg hle]
      rw [List.pairwise_cons]
      refine ⟨?_, ih hys⟩
      intro a ha
      have hmem := (insertByTheta_perm x ys).mem_iff.mp ha
      rcases List.mem_cons.mp hmem with rfl | ha'
      · exact le_of_not_le hle
      · exact hy a ha'

theorem sortByTheta_pairwise (l : List (String × UnidimensionalModel)) :
    List.Pairwise (fun a b => a.2.get_theta ≤ b.2.get_theta) (sortByTheta l) := by
  induction l with
  | nil => simp [sortByTheta]
  | cons x xs ih =>
    simp only [sortByTheta]
    exact insertByTheta_pairwise x (sortByTheta xs) ih

theorem sortByTheta_eq_of_const (v : ℚ) :
    ∀ l : List (String × UnidimensionalModel),
      (∀ p ∈ l, p.2.get_theta = v) → sortByTheta l = l := by
  intro l
  induction l with
  | nil => intro _; rfl
  | cons x xs ih =>
    intro hall
    simp only [sortByTheta]
    rw [ih (fun p hp => hall p (List.mem_cons_of_mem _ hp))]
    cases xs with
    | nil => rfl
    | cons y ys =>
      unfold insertByTheta
      rw [if_pos (by
        rw [hall x (List.mem_cons_self _ _), hall y (by simp)])]

/-! The claims. -/

/-- C1, counterexample: irt_adapter.py update_theta produces the new theta by
adding 0.1 to the previous value. With the same item, the same single-response
history (one correct answer on itemA) and the same prior, two different
previous theta values yield two different new thetas, each equal to the
previous value plus 0.1 — this path patches the previous theta incrementally
instead of recomputing the estimate from the full response history and prior. -/
theorem c1_counterexample :
    update_theta [("c", 0)] itemA true = some [("c", 0 + 1/10)] ∧
    update_theta [("c", 7/10)] itemA true = some [("c", 7/10 + 1/10)] ∧
    ((0 : ℚ) + 1/10 ≠ 7/10 + 1/10) :=
  ⟨rfl, rfl, by norm_num⟩

/-- C1 (amended): in the engine Skill Model (models/unidimensional.py), after
any nonempty run of successful record_response calls theta equals the
estimator applied to the entire accumulated response history, and the final
theta is unchanged when the run is replayed from a model whose starting theta
is replaced by any other value — on that path theta is recomputed from the
full history, never patched from the previous value. The
session_service/irt_adapter path violates the claim as the counterexample
shows. -/
theorem c1_theta_recomputed_from_full_history (m : UnidimensionalModel)
    (θ₀ : ℚ) (r : Bool) (it : TestItem) (hist : List (Bool × TestItem))
    (hok : allOk m ((r, it) :: hist) = true) :
    (applyAll m ((r, it) :: hist)).ability_level =
      (m.estimator (m.response_pattern ++ ((r, it) :: hist).map Prod.fst)
                   (m.answered_items ++ ((r, it) :: hist).map Prod.snd)).1 ∧
    (applyAll { m with ability_level := θ₀ } ((r, it) :: hist)).ability_level =
      (applyAll m ((r, it) :: hist)).ability_level := by
  have h1 : m.item_pool.contains it = true := by
    have hsplit : allOk m ((r, it) :: hist) =
        (m.item_pool.contains it && allOk ((m.record_response r it).2) hist) := rfl
    have hok' := hok
    rw [hsplit, Bool.and_eq_true] at hok'
    exact hok'.1
  refine ⟨applyAll_theta_eq_estimate hist m r it hok, ?_⟩
  rw [applyAll_ignores_theta hist m θ₀ r it h1]

/-- C1 witness: the amended theorem applied to a concrete model with a
history-sensitive estimator and a one-response run. -/
theorem c1_witness :
    allOk engUni [(true, tItem1)] = true ∧
    ((applyAll engUni [(true, tItem1)]).ability_level =
      (engUni.estimator (engUni.response_pattern ++ [(true, tItem1)].map Prod.fst)
                        (engUni.answered_items ++ [(true, tItem1)].map Prod.snd)).1 ∧
     (applyAll { engUni with ability_level := 5 } [(true, tItem1)]).ability_level =
      (applyAll engUni [(true, tItem1)]).ability_level) :=
  ⟨by rfl, c1_theta_recomputed_from_full_history engUni 5 true tItem1 [] (by rfl)⟩

/-- C2, counterexample: with an estimator landing exactly on the mastery
threshold (new theta = threshold = 1), a successful record_response leaves
mastery_reached false: the source tests get_theta() > mastery_threshold
strictly, so a response that leaves theta exactly at the threshold does not
set the flag, contrary to the claimed theta >= mastery_threshold rule. -/
theorem c2_counterexample :
    ((uniAtThreshold.record_response true tItem1).2).ability_level =
      uniAtThreshold.mastery_threshold ∧
    ((uniAtThreshold.record_response true tItem1).2).mastery_reached = false ∧
    uniAtThreshold.mastery_reached = false :=
  ⟨rfl, rfl, rfl⟩

/-- C2 (amended): after every successful record_response, mastery_reached
equals (previous mastery_reached OR new theta > mastery_threshold) — a strict
comparison; landing exactly on the threshold does not set the flag. -/
theorem c2_mastery_update_strict (m : UnidimensionalModel) (r : Bool)
    (it : TestItem) (h : m.item_pool.contains it = true) :
    ((m.record_response r it).2).mastery_reached =
      (m.mastery_reached ||
        decide (m.mastery_threshold <
          ((m.record_response r it).2).ability_level)) := by
  rw [record_response_ok_spec m r it h]

/-- C2 witness: the amended theorem applied at the threshold-landing model. -/
theorem c2_witness :
    uniAtThreshold.item_pool.contains tItem1 = true ∧
    ((uniAtThreshold.record_response true tItem1).2).mastery_reached =
      (uniAtThreshold.mastery_reached ||
        decide (uniAtThreshold.mastery_threshold <
          ((uniAtThreshold.record_response true tItem1).2).ability_level)) :=
  ⟨by rfl, c2_mastery_update_strict uniAtThreshold true tItem1 (by rfl)⟩

/-- C3, counterexample: two eligible skills with equal theta; the models dict
lists "b" before "a". get_next_item returns the item of "b" and
choose_next_item names skill "b" — dict insertion order, although the
ascending-name tie-break the claim states would pick "a". -/
theorem c3_counterexample :
    uniB.get_theta = uniA.get_theta ∧
    eligSkill uniB = true ∧ eligSkill uniA = true ∧
    mmBA.models.map Prod.fst = ["b", "a"] ∧
    MultidimensionalModel.get_next_item mmBA = some tItemB ∧
    choose_next_item mmBA = (some tItemB, some "b") ∧
    ("a" : String) < "b" :=
  ⟨rfl, rfl, rfl, rfl, rfl, rfl, String.lt_iff_toList_lt.mpr (by decide)⟩

/-- C3 (amended): get_next_item considers exactly the skills with
questions_left and without mastery_reached; a returned item comes from an
eligible skill whose theta is minimal among the eligible skills able to supply
an item; the result is None — and choose_next_item yields (None, None) — once
no eligible skill supplies an item. Ties between equal thetas are broken by
dict insertion order (with all thetas equal the scan runs in insertion
order), not by skill name. -/
theorem c3_lowest_theta_first (mm : MultidimensionalModel) (v : ℚ) :
    (mm.get_next_item = none ↔
      ∀ p ∈ mm.models, eligSkill p.2 = true →
        p.2.selector p.2.item_pool p.2.ability_level = none) ∧
    (∀ it, mm.get_next_item = some it →
      ∃ p ∈ mm.models, eligSkill p.2 = true ∧
        p.2.selector p.2.item_pool p.2.ability_level = some it ∧
        ∀ q ∈ mm.models, eligSkill q.2 = true → suppliesItem q.2 = true →
          p.2.get_theta ≤ q.2.get_theta) ∧
    ((∀ p ∈ mm.models, p.2.get_theta = v) →
      mm.get_next_item = firstItem mm.models) ∧
    (mm.get_next_item = none → choose_next_item mm = (none, none)) := by
  refine ⟨?_, ?_, ?_, ?_⟩
  · rw [MultidimensionalModel.get_next_item, firstItem_none_iff]
    constructor
    · intro hh p hp hpe
      exact hh p ((sortByTheta_perm mm.models).mem_iff.mpr hp) hpe
    · intro hh p hp hpe
      exact hh p ((sortByTheta_perm mm.models).mem_iff.mp hp) hpe
  · intro it h
    rw [MultidimensionalModel.get_next_item] at h
    obtain ⟨p, hp, he, hsel, hmin⟩ :=
      firstItem_min it (sortByTheta mm.models) (sortByTheta_pairwise mm.models) h
    refine ⟨p, (sortByTheta_perm mm.models).mem_iff.mp hp, he, hsel, ?_⟩
    intro q hq hqe hqs
    exact hmin q ((sortByTheta_perm mm.models).mem_iff.mpr hq) hqe hqs
  · intro hall
    rw [MultidimensionalModel.get_next_item, sortByTheta_eq_of_const v mm.models hall]
  · intro h
    unfold choose_next_item
    rw [h]

/-- C3 witness: the amended theorem's insertion-order tie-break clause applied
to the concrete two-skill model with equal thetas. -/
theorem c3_witness :
    (∀ p ∈ mmBA.models, p.2.get_theta = 0) ∧
    MultidimensionalModel.get_next_item mmBA = firstItem mmBA.models :=
  ⟨by decide, (c3_lowest_theta_first mmBA 0).2.2.1 (by decide)⟩

/-- C4, counterexample: a mastered skill model with a nonempty pool still
returns an item from get_next_item — the mastery and exhaustion flags are not
consulted there; the filtering lives in the multidimensional caller. -/
theorem c4_counterexample :
    uniMastered.mastery_reached = true ∧
    (uniMastered.get_next_item).1 = some tItem1 :=
  ⟨rfl, rfl⟩

/-- C4 (amended): the Skill Model's get_next_item delegates unconditionally to
the selection strategy over the pool at the current theta: its result is
independent of mastery_reached and of questions_left, and questions_left is
cleared exactly when the selection yields nothing. -/
theorem c4_get_next_item_ignores_flags (m : UnidimensionalModel) (b : Bool) :
    (m.get_next_item).1 = m.selector m.item_pool m.ability_level ∧
    (({ m with mastery_reached := b } : UnidimensionalModel).get_next_item).1 =
      (m.get_next_item).1 ∧
    (({ m with questions_left := b } : UnidimensionalModel).get_next_item).1 =
      (m.get_next_item).1 ∧
    ((m.get_next_item).2).questions_left =
      (m.questions_left && (m.selector m.item_pool m.ability_level).isSome) := by
  refine ⟨uniGet_fst m, ?_, ?_, ?_⟩
  · rw [uniGet_fst, uniGet_fst]
  · rw [uniGet_fst, uniGet_fst]
  · unfold UnidimensionalModel.get_next_item
    cases m.selector m.item_pool m.ability_level with
    | some it => simp
    | none => simp

/-- C5, counterexample: two unasked candidates with equal information (the
placeholder information is the constant 1); with RNG draw 0, select_next
returns the first-listed item "b", not the smaller id "a": the choice is the
RNG's, not a smallest-id tie-break. -/
theorem c5_counterexample :
    information [] itemB = information [] itemA ∧
    select_next 0 [] [itemB, itemA] [] = some itemB ∧
    itemA.item_id < itemB.item_id :=
  ⟨rfl, rfl, String.lt_iff_toList_lt.mpr (by decide)⟩

/-- C5 (amended): select_next returns None exactly when no unasked candidate
remains; otherwise it returns some element of the unasked pool chosen by the
RNG draw. information is the constant 1 for every theta and item, so maximal
information and id tie-breaking play no role in the choice. -/
theorem c5_select_next_rng (k : Nat) (θ : ThetaMap)
    (candidates : List ItemRecord) (asked : List String) :
    (select_next k θ candidates asked = none ↔
      candidates.filter (fun it => !(asked.contains it.item_id)) = []) ∧
    (∀ it, select_next k θ candidates asked = some it →
      it ∈ candidates.filter (fun it => !(asked.contains it.item_id))) ∧
    (∀ it, information θ it = 1) := by
  refine ⟨⟨?_, ?_⟩, ?_, fun _ => rfl⟩
  · intro h
    by_contra hne
    have hlen : 0 <
        (candidates.filter (fun it => !(asked.contains it.item_id))).length :=
      List.length_pos.mpr hne
    have hmod := Nat.mod_lt k hlen
    simp only [select_next] at h
    rw [List.getElem?_eq_none_iff] at h
    omega
  · intro h
    simp only [select_next, h]
    rfl
  · intro it h
    simp only [select_next] at h
    exact List.getElem?_mem h

/-- C5 witness: the amended theorem applied at concrete candidates, yielding
membership of the returned item in the unasked pool. -/
theorem c5_witness :
    itemB ∈ ([itemB, itemA] : List ItemRecord).filter
      (fun it => !(([] : List String).contains it.item_id)) :=
  (c5_select_next_rng 0 [] [itemB, itemA] []).2.1 itemB (by rfl)

/-- C6, counterexample: a reachable session state (both items of the bank
answered, cap of 5 not reached) in which no selectable candidate remains: a
further step returns no item yet leaves finished = false, although the claimed
iff requires finished = true once no item can be supplied. -/
theorem c6_counterexample :
    sess6.finished = false ∧
    sess6.asked.length < sess6.max_items ∧
    select_next 0 sess6.theta (items_by_concepts dsAB sess6.concepts)
      sess6.asked = none ∧
    (step dsAB 0 sess6 none).toOption = some (sess6, none) :=
  ⟨rfl, by decide, rfl, rfl⟩

/-- C6 (amended): in session_service, after every successful step the finished
flag equals (previous finished OR len(asked) >= max_items) — running out of
selectable items does not finish the session. In service/core.py step_attempt,
conversely, is_finished holds exactly when no eligible skill can supply an
item, with no item-cap test. -/
theorem c6_finished_rule :
    (∀ ds k st ans st' ni, step ds k st ans = .ok (st', ni) →
      st'.finished = (st.finished || decide (st.max_items ≤ st'.asked.length))) ∧
    (∀ mm : MultidimensionalModel,
      step_attempt_is_finished mm = true ↔
        ∀ p ∈ mm.models, eligSkill p.2 = true →
          p.2.selector p.2.item_pool p.2.ability_level = none) := by
  constructor
  · intro ds k st ans st' ni h
    obtain ⟨asked2, _, ha, hf, _⟩ := step_ok_spec ds k st ans st' ni h
    rw [ha]
    exact hf
  · intro mm
    have h1 : step_attempt_is_finished mm = true ↔ mm.get_next_item = none := by
      unfold step_attempt_is_finished choose_next_item
      cases hg : mm.get_next_item with
      | none => simp
      | some it => simp
    rw [h1, MultidimensionalModel.get_next_item, firstItem_none_iff]
    constructor
    · intro hh p hp hpe
      exact hh p ((sortByTheta_perm mm.models).mem_iff.mpr hp) hpe
    · intro hh p hp hpe
      exact hh p ((sortByTheta_perm mm.models).mem_iff.mp hp) hpe

/-- C6 witness: the amended finished rule applied to a concrete successful
step. -/
theorem c6_witness :
    step dsAB 0 sessAB5 (some ("a", 0)) = .ok (sess6w, some itemB) ∧
    sess6w.finished =
      (sessAB5.finished || decide (sessAB5.max_items ≤ sess6w.asked.length)) :=
  ⟨rfl, c6_finished_rule.1 dsAB 0 sessAB5 (some ("a", 0)) sess6w (some itemB) rfl⟩

/-- C7, counterexample: with max_items = 1, answering item "a" and then item
"b" drives len(asked) to 2 > 1: a step after the session is finished still
appends a fresh valid item, so len(asked) <= max_items is not an invariant of
init/step sequences. -/
theorem c7_counterexample :
    sessAB1.max_items = 1 ∧
    (runSteps dsAB sessAB1 [(0, some ("a", 0)), (0, some ("b", 0))]).asked
      = ["a", "b"] ∧
    sessAB1.max_items <
      (runSteps dsAB sessAB1 [(0, some ("a", 0)), (0, some ("b", 0))]).asked.length :=
  ⟨rfl, rfl, by decide⟩

/-- C7 (amended): one successful step grows asked by at most one id, so
len(asked) <= max_items is preserved from any state strictly below the cap;
from a state at or above the cap, a step answering a fresh valid item exceeds
it. -/
theorem c7_asked_growth (ds : Dataset) (k : Nat) (st : SessionState)
    (ans : Option (String × Nat)) (st' : SessionState) (ni : Option ItemRecord)
    (h : step ds k st ans = .ok (st', ni)) :
    st'.asked.length ≤ st.asked.length + 1 ∧
    (st.asked.length < st.max_items → st'.asked.length ≤ st.max_items) := by
  obtain ⟨asked2, hc, ha, _, _⟩ := step_ok_spec ds k st ans st' ni h
  rcases hc with rfl | ⟨a, rfl⟩
  · rw [ha]
    omega
  · rw [ha]
    simp only [List.length_append, List.length_cons, List.length_nil]
    omega

/-- C7 witness: the amended growth bound applied to a concrete successful
step. -/
theorem c7_witness :
    sess6w.asked.length ≤ sessAB5.asked.length + 1 ∧
    (sessAB5.asked.length < sessAB5.max_items →
      sess6w.asked.length ≤ sessAB5.max_items) :=
  c7_asked_growth dsAB 0 sessAB5 (some ("a", 0)) sess6w (some itemB) rfl

/-- C8, counterexample: the one-item session is finished with asked = ["a"]
and nothing pending; answering "a" again — a duplicate, out-of-order answer —
succeeds (the code has no SequencingError and records no pending item) and
changes the state: theta moves from 0.1 to 0.2. -/
theorem c8_counterexample :
    sess8.finished = true ∧
    sess8.asked = ["a"] ∧
    sess8.theta = [("c", (0 : ℚ) + 1/10)] ∧
    (step dsAB 0 sess8 (some ("a", 0))).toOption =
      some ({ sess8 with theta := [("c", (0 : ℚ) + 1/10 + 1/10)] }, none) ∧
    ((0 : ℚ) + 1/10 + 1/10 ≠ 0 + 1/10) :=
  ⟨rfl, rfl, rfl, rfl, by norm_num⟩

/-- C8 (amended): step performs no sequencing validation: any answer whose
item id is in the dataset and whose index is in range is accepted and applied,
pending or not, duplicate or not; a duplicate updates theta again without
re-appending the id to asked. No SequencingError exists. -/
theorem c8_no_sequencing_check (ds : Dataset) (k : Nat) (st : SessionState)
    (a : String) (i : Nat) (it : ItemRecord) (θ' : ThetaMap)
    (hit : get_item ds a = some it)
    (hlt : i < it.options.length)
    (hθ : update_theta st.theta it (decide (i = it.correct_index)) = some θ') :
    ∃ st' ni, step ds k st (some (a, i)) = .ok (st', ni) ∧
      st'.theta = θ' ∧
      st'.asked = (if st.asked.contains a then st.asked
                   else st.asked ++ [a]) := by
  rw [step_some_spec ds k st a i it θ' hit hlt hθ]
  by_cases hc : st.asked.contains a
  · rw [if_pos hc]
    obtain ⟨ni₀, hsf⟩ := stepFinish_spec ds k { st with theta := θ' }
    rw [hsf]
    refine ⟨_, ni₀, rfl, rfl, ?_⟩
    rw [if_pos hc]
  · rw [if_neg hc]
    obtain ⟨ni₀, hsf⟩ :=
      stepFinish_spec ds k { st with theta := θ', asked := st.asked ++ [a] }
    rw [hsf]
    refine ⟨_, ni₀, rfl, rfl, ?_⟩
    rw [if_neg hc]

/-- C8 witness: the amended theorem applied to the concrete duplicate answer
on the finished one-item session. -/
theorem c8_witness :
    ∃ st' ni, step dsAB 0 sess8 (some ("a", 0)) = .ok (st', ni) ∧
      st'.theta = [("c", (0 : ℚ) + 1/10 + 1/10)] ∧
      st'.asked = (if sess8.asked.contains "a" then sess8.asked
                   else sess8.asked ++ ["a"]) :=
  c8_no_sequencing_check dsAB 0 sess8 "a" 0 itemA [("c", (0 : ℚ) + 1/10 + 1/10)]
    rfl (by decide) rfl

/-- C9, counterexample: record_response on a model whose pool does not contain
the item fails, but the failed call has already appended the response and the
item to the history lists — the state is not left untouched. -/
theorem c9_counterexample :
    ((uniEmptyPool.record_response true tItem1).1).isSome = true ∧
    ((uniEmptyPool.record_response true tItem1).2).response_pattern = [true] ∧
    uniEmptyPool.response_pattern = [] :=
  ⟨rfl, rfl, rfl⟩

/-- C9 (amended): a failing record_response (item not in the pool) leaves
theta, the standard error, the pool and the mastery flag untouched, but the
response and the item stay appended to response_pattern and answered_items —
the call is not atomic. -/
theorem c9_failing_call_keeps_appends (m : UnidimensionalModel) (r : Bool)
    (it : TestItem) (h : m.item_pool.contains it = false) :
    m.record_response r it =
      (some .unknownItem,
       { m with response_pattern := m.response_pattern ++ [r]
                answered_items := m.answered_items ++ [it] }) ∧
    ((m.record_response r it).2).response_pattern ≠ m.response_pattern := by
  refine ⟨record_response_fail_spec m r it h, ?_⟩
  rw [record_response_fail_spec m r it h]
  dsimp only
  intro heq
  have hlen := congrArg List.length heq
  simp at hlen

/-- C9 witness: the amended theorem applied to the empty-pool model. -/
theorem c9_witness :
    uniEmptyPool.item_pool.contains tItem1 = false ∧
    (uniEmptyPool.record_response true tItem1 =
      (some .unknownItem,
       { uniEmptyPool with
         response_pattern := uniEmptyPool.response_pattern ++ [true]
         answered_items := uniEmptyPool.answered_items ++ [tItem1] }) ∧
     ((uniEmptyPool.record_response true tItem1).2).response_pattern ≠
       uniEmptyPool.response_pattern) :=
  ⟨rfl, c9_failing_call_keeps_appends uniEmptyPool true tItem1 rfl⟩

/-- C10, counterexample: for an item whose concept is the empty string (falsy
in Python), update_theta changes the entry at the mapping's first key "x" and
not at the item's concept key "" — and on an empty mapping the call raises
(returns nothing) instead of returning a fresh mapping. -/
theorem c10_counterexample :
    itemE.concept = some "" ∧
    update_theta [("x", 0)] itemE true = some [("x", 0 + 1/10)] ∧
    ("x" : String) ≠ "" ∧
    update_theta [] itemE true = none :=
  ⟨rfl, rfl, by decide, rfl⟩

/-- C10 (amended): update_theta is pure — the caller's mapping is never
changed, since the source copies it before assigning — and it returns a
mapping differing from the input only at the update key, which is the item's
concept when that is a non-empty string and the mapping's first key otherwise;
every other key keeps its binding. The call raises (returns nothing) exactly
when no update key exists: empty mapping together with a missing or empty
concept. -/
theorem c10_update_theta_frame (θ : ThetaMap) (it : ItemRecord) (c : Bool) :
    (updateKey θ it.concept = none → update_theta θ it c = none) ∧
    (∀ k', updateKey θ it.concept = some k' →
      update_theta θ it c =
        some (tset θ k' (tget θ k' 0 + (if c then (1 : ℚ)/10 else -(1/10)))) ∧
      ∀ k, k ≠ k' →
        tlookup (tset θ k' (tget θ k' 0 + (if c then (1 : ℚ)/10 else -(1/10)))) k =
          tlookup θ k) := by
  constructor
  · intro h
    unfold update_theta
    rw [h]
  · intro k' h
    constructor
    · unfold update_theta
      rw [h]
    · intro k hk
      exact tlookup_tset_ne θ k' _ k hk

/-- C10 witness: the amended theorem applied to the falsy-concept item over a
one-key mapping, giving the off-key frame condition at key "y". -/
theorem c10_witness :
    tlookup (tset [("x", 0)] "x"
      (tget [("x", 0)] "x" 0 + (if true then (1 : ℚ)/10 else -(1/10)))) "y" =
      tlookup [("x", 0)] "y" :=
  ((c10_update_theta_frame [("x", 0)] itemE true).2 "x" rfl).2 "y" (by decide)

end StudyCAT
